import Mathlib

/-
  Verification development for the e57-to-ifc-converter detection core
  (src/backend/app/processing.py and src/backend/app/ifc_generator.py).

  The point-cloud detectors are embedded shallowly over exact rationals:
  a point sample is a list of (x, y, z) triples in ℚ, numpy histograms are
  modelled by their exact bin-assignment semantics (uniform bins over the
  data range, left-closed, last bin right-closed, degenerate ranges widened
  by 0.5 on each side as numpy does), and python `int()` truncation is
  modelled by `pyInt`.  Code paths on which the python code raises an
  exception (min of an empty array, histograms with a non-positive bin
  count, a zero grid size) are modelled by `Option`, `none` standing for
  the raised exception.
-/

attribute [local semireducible] Rat.add Rat.inv Rat.mul Rat.sub

namespace E57

/-- A single point of the cleaned point sample. -/
structure Point where
  x : ℚ
  y : ℚ
  z : ℚ
  deriving DecidableEq, Repr

/-- Result record of `detect_slabs` (dict with keys z, thickness). -/
structure SlabElement where
  z : ℚ
  thickness : ℚ
  deriving DecidableEq, Repr

/-- Result record of `detect_walls` (dict with start, end, height, thickness). -/
structure WallElement where
  start : Point
  endP : Point
  height : ℚ
  thickness : ℚ
  deriving DecidableEq, Repr

/-- Result record of `detect_columns` (dict with position, height, width, depth). -/
structure ColumnElement where
  position : Point
  height : ℚ
  width : ℚ
  depth : ℚ
  deriving DecidableEq, Repr

/-- Minimum of a list of rationals, 0 for the empty list.  Only ever used on
nonempty lists (numpy `.min()` raises on an empty array; that raise is
modelled by the `Option` results of the detectors). -/
def listMinD : List ℚ → ℚ
  | [] => 0
  | a :: t => t.foldl min a

/-- Maximum of a list of rationals, 0 for the empty list. -/
def listMaxD : List ℚ → ℚ
  | [] => 0
  | a :: t => t.foldl max a

/-- Maximum of a list of naturals (numpy `np.max` over a count array; the
arrays in question always hold at least one entry, and counts are ≥ 0,
so folding from 0 is exact). -/
def natListMax (l : List ℕ) : ℕ := l.foldl max 0

/-- Python `int()` applied to a rational: truncation toward zero. -/
def pyInt (q : ℚ) : ℤ := if 0 ≤ q then ⌊q⌋ else -⌊-q⌋

/-- Lower outer edge of a numpy histogram axis over data range [lo, hi]:
numpy widens a degenerate range by 0.5 on each side. -/
def outerLo (lo hi : ℚ) : ℚ := if lo = hi then lo - 1/2 else lo

/-- Upper outer edge of a numpy histogram axis over data range [lo, hi]. -/
def outerHi (lo hi : ℚ) : ℚ := if lo = hi then hi + 1/2 else hi

/-- Bin index of value v in a uniform numpy histogram with n bins over the
data range [lo, hi]: bins are left-closed, the last bin is also
right-closed. -/
def binIdx (lo hi : ℚ) (n : ℕ) (v : ℚ) : ℕ :=
  if v = outerHi lo hi then n - 1
  else (⌊(v - outerLo lo hi) * n / (outerHi lo hi - outerLo lo hi)⌋).toNat

/-- Center of bin i, i.e. the midpoint of edges i and i+1 of a uniform
histogram axis with n bins over data range [lo, hi]. -/
def binCenter (lo hi : ℚ) (n : ℕ) (i : ℕ) : ℚ :=
  outerLo lo hi + ((i : ℚ) + 1/2) * (outerHi lo hi - outerLo lo hi) / n

/-- The z coordinates of a sample (processing.py: `points[:, 2]`). -/
def zCoords (pts : List Point) : List ℚ := pts.map Point.z

/-- `z_coords.min()` of detect_slabs / detect_walls / detect_columns. -/
def z_min (pts : List Point) : ℚ := listMinD (zCoords pts)

/-- `z_coords.max()` of detect_slabs / detect_walls / detect_columns. -/
def z_max (pts : List Point) : ℚ := listMaxD (zCoords pts)

/-- Number of height-histogram bins of detect_slabs:
`bins = int((z_max - z_min) / z_step)`. -/
def slabBins (pts : List Point) (z_step : ℚ) : ℤ :=
  pyInt ((z_max pts - z_min pts) / z_step)

/-- `slabBins` as a natural number (only used when it is ≥ 1). -/
def slabBinsN (pts : List Point) (z_step : ℚ) : ℕ := (slabBins pts z_step).toNat

/-- Count of the height histogram of detect_slabs in bin i
(`hist, bin_edges = np.histogram(z_coords, bins=bins)`). -/
def slabHist (pts : List Point) (z_step : ℚ) (i : ℕ) : ℕ :=
  ((zCoords pts).filter
    (fun v => binIdx (z_min pts) (z_max pts) (slabBinsN pts z_step) v = i)).length

/-- Largest height-histogram count (`np.max(hist)`). -/
def slabHistMax (pts : List Point) (z_step : ℚ) : ℕ :=
  natListMax ((List.range (slabBinsN pts z_step)).map (slabHist pts z_step))

/-- Peak threshold of detect_slabs: `threshold = np.max(hist) * 0.3`. -/
def slabThreshold (pts : List Point) (z_step : ℚ) : ℚ :=
  (slabHistMax pts z_step : ℚ) * (3/10)

/-- Raw slab candidates of detect_slabs: every bin whose count exceeds the
threshold, recorded as (bin-midpoint elevation, count). -/
def slabCandidates (pts : List Point) (z_step : ℚ) : List (ℚ × ℕ) :=
  ((List.range (slabBinsN pts z_step)).filter
    (fun i => slabThreshold pts z_step < (slabHist pts z_step i : ℚ))).map
    (fun i => (binCenter (z_min pts) (z_max pts) (slabBinsN pts z_step) i,
               slabHist pts z_step i))

/-- `np.mean` of a list of rationals (sum divided by length). -/
def slabAvg (l : List ℚ) : ℚ := l.sum / l.length

/-- The candidate-merging loop of detect_slabs: `current` is the group being
grown (always nonempty); a candidate closer than 0.3 to the last member
joins the group, otherwise the group is closed and emits one slab at the
mean elevation with fixed thickness 0.3; the trailing group always emits. -/
def mergeGroups : List ℚ → List ℚ → List SlabElement
  | current, [] => [⟨slabAvg current, 3/10⟩]
  | current, c :: rest =>
      if c - current.getLastD 0 < 3/10 then mergeGroups (current ++ [c]) rest
      else ⟨slabAvg current, 3/10⟩ :: mergeGroups [c] rest

/-- detect_slabs (processing.py lines 8-63).  `none` stands for the
exceptions the python code raises: `z_coords.min()` on an empty sample and
`np.histogram` with a non-positive integer bin count (which is what
`int((z_max - z_min) / z_step)` produces whenever the height range is zero,
in particular on every degenerate sample). -/
def detect_slabs (pts : List Point) (z_step : ℚ) : Option (List SlabElement) :=
  match pts with
  | [] => none
  | _ :: _ =>
    if slabBins pts z_step < 1 then none
    else some (match slabCandidates pts z_step with
      | [] => []
      | c :: rest => mergeGroups [c.1] (rest.map Prod.fst))

/-- Height threshold of detect_walls:
`z_threshold = z_min + z_range * 0.5`. -/
def wallZThreshold (pts : List Point) : ℚ :=
  z_min pts + (z_max pts - z_min pts) * (1/2)

/-- The restricted point set of detect_walls:
`wall_points = points[z_coords > z_threshold]`. -/
def wallBand (pts : List Point) : List Point :=
  pts.filter (fun p => wallZThreshold pts < p.z)

/-- `x_min` over the restricted point set of detect_walls. -/
def wxlo (pts : List Point) : ℚ := listMinD ((wallBand pts).map Point.x)

/-- `x_max` over the restricted point set of detect_walls. -/
def wxhi (pts : List Point) : ℚ := listMaxD ((wallBand pts).map Point.x)

/-- `y_min` over the restricted point set of detect_walls. -/
def wylo (pts : List Point) : ℚ := listMinD ((wallBand pts).map Point.y)

/-- `y_max` over the restricted point set of detect_walls. -/
def wyhi (pts : List Point) : ℚ := listMaxD ((wallBand pts).map Point.y)

/-- `x_bins = int((x_max - x_min) / grid_size) + 1` of detect_walls. -/
def wallXBinsZ (pts : List Point) (grid_size : ℚ) : ℤ :=
  pyInt ((wxhi pts - wxlo pts) / grid_size) + 1

/-- `y_bins = int((y_max - y_min) / grid_size) + 1` of detect_walls. -/
def wallYBinsZ (pts : List Point) (grid_size : ℚ) : ℤ :=
  pyInt ((wyhi pts - wylo pts) / grid_size) + 1

/-- Wall x-axis bin count as a natural number. -/
def wallXBins (pts : List Point) (grid_size : ℚ) : ℕ :=
  (wallXBinsZ pts grid_size).toNat

/-- Wall y-axis bin count as a natural number. -/
def wallYBins (pts : List Point) (grid_size : ℚ) : ℕ :=
  (wallYBinsZ pts grid_size).toNat

/-- Cell count `hist_2d[i, j]` of the 2D occupancy histogram of detect_walls
(`np.histogram2d` over the xy projection of the restricted point set). -/
def wallCount (pts : List Point) (grid_size : ℚ) (i j : ℕ) : ℕ :=
  ((wallBand pts).filter (fun p =>
    binIdx (wxlo pts) (wxhi pts) (wallXBins pts grid_size) p.x = i ∧
    binIdx (wylo pts) (wyhi pts) (wallYBins pts grid_size) p.y = j)).length

/-- `np.max(hist_2d)` of detect_walls. -/
def wallHistMax (pts : List Point) (grid_size : ℚ) : ℕ :=
  natListMax ((List.range (wallXBins pts grid_size)).map (fun i =>
    natListMax ((List.range (wallYBins pts grid_size)).map (fun j =>
      wallCount pts grid_size i j))))

/-- `wall_mask[i, j] = hist_2d[i, j] > np.max(hist_2d) * 0.2`. -/
def wallMask (pts : List Point) (grid_size : ℚ) (i j : ℕ) : Bool :=
  decide ((wallHistMax pts grid_size : ℚ) * (1/5) <
    (wallCount pts grid_size i j : ℚ))

/-- Occupied cell indices of fixed grid row j, in increasing i order (the
`wall_segments` gathered by the first scan of detect_walls). -/
def occRow (pts : List Point) (grid_size : ℚ) (j : ℕ) : List ℕ :=
  (List.range (wallXBins pts grid_size)).filter
    (fun i => wallMask pts grid_size i j)

/-- Occupied cell indices of fixed grid column i, in increasing j order (the
`wall_segments` gathered by the second scan of detect_walls). -/
def occCol (pts : List Point) (grid_size : ℚ) (i : ℕ) : List ℕ :=
  (List.range (wallYBins pts grid_size)).filter
    (fun j => wallMask pts grid_size i j)

/-- `x_center = (x_edges[i] + x_edges[i+1]) / 2` of detect_walls. -/
def wallXCenter (pts : List Point) (grid_size : ℚ) (i : ℕ) : ℚ :=
  binCenter (wxlo pts) (wxhi pts) (wallXBins pts grid_size) i

/-- `y_center = (y_edges[j] + y_edges[j+1]) / 2` of detect_walls. -/
def wallYCenter (pts : List Point) (grid_size : ℚ) (j : ℕ) : ℚ :=
  binCenter (wylo pts) (wyhi pts) (wallYBins pts grid_size) j

/-- The wall emitted from grid row j by the first scan of detect_walls:
start/end are the centers of the first and last occupied cells of the row,
z is the global minimum z, height the global z range, thickness 0.2. -/
def rowWall (pts : List Point) (grid_size : ℚ) (j : ℕ) : WallElement :=
  { start := ⟨wallXCenter pts grid_size ((occRow pts grid_size j).headD 0),
              wallYCenter pts grid_size j, z_min pts⟩
    endP := ⟨wallXCenter pts grid_size ((occRow pts grid_size j).getLastD 0),
             wallYCenter pts grid_size j, z_min pts⟩
    height := z_max pts - z_min pts
    thickness := 1/5 }

/-- The wall emitted from grid column i by the second scan of detect_walls. -/
def colWall (pts : List Point) (grid_size : ℚ) (i : ℕ) : WallElement :=
  { start := ⟨wallXCenter pts grid_size i,
              wallYCenter pts grid_size ((occCol pts grid_size i).headD 0),
              z_min pts⟩
    endP := ⟨wallXCenter pts grid_size i,
             wallYCenter pts grid_size ((occCol pts grid_size i).getLastD 0),
             z_min pts⟩
    height := z_max pts - z_min pts
    thickness := 1/5 }

/-- detect_walls (processing.py lines 65-148).  `none` stands for the
exceptions the python code raises: `z_coords.min()` on an empty sample,
division by a zero grid size, and `np.histogram2d` with a non-positive bin
count (negative grid sizes can produce one).  A nonempty sample whose
restricted band is empty returns the empty list before any histogram is
built.  Each grid row with more than 5 occupied cells emits one wall, then
each grid column with more than 5 occupied cells emits one wall. -/
def detect_walls (pts : List Point) (grid_size : ℚ) :
    Option (List WallElement) :=
  match pts with
  | [] => none
  | _ :: _ =>
    if wallBand pts = [] then some []
    else if grid_size = 0 then none
    else if wallXBinsZ pts grid_size < 1 ∨ wallYBinsZ pts grid_size < 1 then none
    else some
      (((List.range (wallYBins pts grid_size)).filterMap (fun j =>
          if 5 < (occRow pts grid_size j).length
          then some (rowWall pts grid_size j) else none)) ++
       ((List.range (wallXBins pts grid_size)).filterMap (fun i =>
          if 5 < (occCol pts grid_size i).length
          then some (colWall pts grid_size i) else none)))

/-- `x_min` over the full point set of detect_columns. -/
def cxlo (pts : List Point) : ℚ := listMinD (pts.map Point.x)

/-- `x_max` over the full point set of detect_columns. -/
def cxhi (pts : List Point) : ℚ := listMaxD (pts.map Point.x)

/-- `y_min` over the full point set of detect_columns. -/
def cylo (pts : List Point) : ℚ := listMinD (pts.map Point.y)

/-- `y_max` over the full point set of detect_columns. -/
def cyhi (pts : List Point) : ℚ := listMaxD (pts.map Point.y)

/-- `x_bins = int((x_max - x_min) / grid_size) + 1` of detect_columns,
before the cap at 200. -/
def colXBinsZ (pts : List Point) (grid_size : ℚ) : ℤ :=
  pyInt ((cxhi pts - cxlo pts) / grid_size) + 1

/-- `y_bins = int((y_max - y_min) / grid_size) + 1` of detect_columns,
before the cap at 200. -/
def colYBinsZ (pts : List Point) (grid_size : ℚ) : ℤ :=
  pyInt ((cyhi pts - cylo pts) / grid_size) + 1

/-- Column x-axis bin count: `x_bins = min(x_bins, 200)`. -/
def colXBins (pts : List Point) (grid_size : ℚ) : ℕ :=
  min (colXBinsZ pts grid_size).toNat 200

/-- Column y-axis bin count: `y_bins = min(y_bins, 200)`. -/
def colYBins (pts : List Point) (grid_size : ℚ) : ℕ :=
  min (colYBinsZ pts grid_size).toNat 200

/-- Cell count `hist_2d[i, j]` of the 2D occupancy histogram of
detect_columns over the full point set. -/
def colCount (pts : List Point) (grid_size : ℚ) (i j : ℕ) : ℕ :=
  (pts.filter (fun p =>
    binIdx (cxlo pts) (cxhi pts) (colXBins pts grid_size) p.x = i ∧
    binIdx (cylo pts) (cyhi pts) (colYBins pts grid_size) p.y = j)).length

/-- `np.max(hist_2d)` of detect_columns. -/
def colHistMax (pts : List Point) (grid_size : ℚ) : ℕ :=
  natListMax ((List.range (colXBins pts grid_size)).map (fun i =>
    natListMax ((List.range (colYBins pts grid_size)).map (fun j =>
      colCount pts grid_size i j))))

/-- Column peak threshold: `threshold = np.max(hist_2d) * 0.6`. -/
def colThreshold (pts : List Point) (grid_size : ℚ) : ℚ :=
  (colHistMax pts grid_size : ℚ) * (3/5)

/-- `np.max(neighbors)` over the 3×3 neighborhood `hist_2d[i-1:i+2, j-1:j+2]`
of an interior cell (i, j); the cell itself is part of the neighborhood, so
the local-maximum test `hist_2d[i, j] == np.max(neighbors)` is non-strict. -/
def nbhdMax (pts : List Point) (grid_size : ℚ) (i j : ℕ) : ℕ :=
  natListMax ((List.range 3).map (fun di =>
    natListMax ((List.range 3).map (fun dj =>
      colCount pts grid_size (i - 1 + di) (j - 1 + dj)))))

/-- The column emitted for interior cell (i, j) of detect_columns. -/
def columnAt (pts : List Point) (grid_size : ℚ) (i j : ℕ) : ColumnElement :=
  { position := ⟨binCenter (cxlo pts) (cxhi pts) (colXBins pts grid_size) i,
                 binCenter (cylo pts) (cyhi pts) (colYBins pts grid_size) j,
                 z_min pts⟩
    height := z_max pts - z_min pts
    width := 2/5
    depth := 2/5 }

/-- The raw column candidate list of detect_columns, before the cap: the
double scan over interior cells `i in range(1, x_bins - 1)`,
`j in range(1, y_bins - 1)` emitting every cell whose count exceeds the
threshold and equals the maximum of its 3×3 neighborhood. -/
def columnCandidates (pts : List Point) (grid_size : ℚ) : List ColumnElement :=
  (List.range' 1 (colXBins pts grid_size - 2)).flatMap (fun i =>
    (List.range' 1 (colYBins pts grid_size - 2)).filterMap (fun j =>
      if colThreshold pts grid_size < (colCount pts grid_size i j : ℚ) ∧
         colCount pts grid_size i j = nbhdMax pts grid_size i j
      then some (columnAt pts grid_size i j) else none))

/-- detect_columns (processing.py lines 150-216).  `none` stands for the
exceptions the python code raises (empty sample, zero grid size,
non-positive bin count).  A z range below 2.0 returns the empty list before
any histogram is built; at the end, a candidate list longer than 50 is cut
to its first 20 entries. -/
def detect_columns (pts : List Point) (grid_size : ℚ) :
    Option (List ColumnElement) :=
  match pts with
  | [] => none
  | _ :: _ =>
    if z_max pts - z_min pts < 2 then some []
    else if grid_size = 0 then none
    else if colXBinsZ pts grid_size < 1 ∨ colYBinsZ pts grid_size < 1 then none
    else some
      (if 50 < (columnCandidates pts grid_size).length
       then (columnCandidates pts grid_size).take 20
       else columnCandidates pts grid_size)

/-- The sample used for the claim that two adjacent tied cells both pass the
non-strict local-maximum test of detect_columns: a 4×3 grid whose two
interior cells (1,1) and (2,1) hold 2 points each (the tied global
maximum), with one corner point at each of two z extremes 2 apart. -/
def c10pts : List Point :=
  [⟨0, 0, 0⟩, ⟨9/5, 6/5, 2⟩, ⟨1/2, 1/2, 0⟩, ⟨3/5, 1/2, 0⟩,
   ⟨1, 1/2, 0⟩, ⟨11/10, 1/2, 0⟩]

/-- The model bounding box handed to the IFC generator (`bounds` of the
model JSON: the min/max corners of the point sample). -/
structure Bounds where
  min : Point
  max : Point
  deriving DecidableEq, Repr

/-- Geometry produced by IFCGenerator.create_slab: the rectangular profile
dimensions, the extrusion depth and direction, and the placement location. -/
structure SlabGeom where
  profileX : ℚ
  profileY : ℚ
  depth : ℚ
  extrudedDirection : Point
  location : Point
  deriving DecidableEq, Repr

/-- IFCGenerator.create_slab (ifc_generator.py lines 103-181): the profile
is sized from the whole model bounds, the extrusion depth is the slab
thickness along +Z, and the placement location is the bounds center at the
slab elevation. -/
def create_slab (slab : SlabElement) (bounds : Bounds) : SlabGeom :=
  { profileX := bounds.max.x - bounds.min.x
    profileY := bounds.max.y - bounds.min.y
    depth := slab.thickness
    extrudedDirection := ⟨0, 0, 1⟩
    location := ⟨(bounds.max.x + bounds.min.x) / 2,
                 (bounds.max.y + bounds.min.y) / 2, slab.z⟩ }

/-- Squared planar start-to-end length of a wall (`dx**2 + dy**2`).  The
python code compares `math.sqrt` of this against 0.1; over the nonnegative
reals that comparison is equivalent to comparing the square against 0.1²,
which keeps the embedding inside ℚ. -/
def wallLengthSq (w : WallElement) : ℚ :=
  (w.endP.x - w.start.x) ^ 2 + (w.endP.y - w.start.y) ^ 2

/-- Geometry produced by IFCGenerator.create_wall, restricted to its
rational components (the profile length and the rotation direction involve
a square root and are determined by the same dx, dy). -/
structure WallGeom where
  location : Point
  axis : Point
  profileY : ℚ
  depth : ℚ
  deriving DecidableEq, Repr

/-- IFCGenerator.create_wall (ifc_generator.py lines 183-285): `None` is
returned when the start-to-end length is below 0.1 (equivalently, when its
square is below 0.1²); otherwise the wall is placed at its start point and
extruded by its height along +Z with profile width equal to its
thickness. -/
def create_wall (w : WallElement) : Option WallGeom :=
  if wallLengthSq w < (1/10) ^ 2 then none
  else some { location := w.start, axis := ⟨0, 0, 1⟩,
              profileY := w.thickness, depth := w.height }

/-- The per-run segmentation of PointCloudProcessor.segment_building_elements:
the three detectors applied to the same cloud with their default parameters
(z_step 0.05, wall grid 0.1, column grid 0.5). -/
def segment_building_elements (pts : List Point) :
    Option (List SlabElement) × Option (List WallElement) ×
      Option (List ColumnElement) :=
  (detect_slabs pts (1/20), detect_walls pts (1/10), detect_columns pts (1/2))

/-- The aggregated model record written by save_model_data: point count,
bounds and the three element lists. -/
structure BuildingModel where
  point_count : ℕ
  bounds : Bounds
  slabs : Option (List SlabElement)
  walls : Option (List WallElement)
  columns : Option (List ColumnElement)
  deriving DecidableEq, Repr

/-- Bounds of a sample (min/max per axis, as `get_min_bound`/`get_max_bound`). -/
def boundsOf (pts : List Point) : Bounds :=
  ⟨⟨cxlo pts, cylo pts, z_min pts⟩, ⟨cxhi pts, cyhi pts, z_max pts⟩⟩

/-- One full run of the detection-and-assembly pipeline on a sample. -/
def assembleModel (pts : List Point) : BuildingModel :=
  { point_count := pts.length
    bounds := boundsOf pts
    slabs := (segment_building_elements pts).1
    walls := (segment_building_elements pts).2.1
    columns := (segment_building_elements pts).2.2 }

/-- Two consecutive runs of the full pipeline on the same sample. -/
def runPipelineTwice (pts : List Point) : BuildingModel × BuildingModel :=
  (assembleModel pts, assembleModel pts)

/-- The x extent of a bounding box, as the spec words it. -/
def xExtent (b : Bounds) : ℚ := b.max.x - b.min.x

/-- The y extent of a bounding box, as the spec words it. -/
def yExtent (b : Bounds) : ℚ := b.max.y - b.min.y

/-- The bounding-box center x coordinate, as the spec words it. -/
def boundsCenterX (b : Bounds) : ℚ := (b.max.x + b.min.x) / 2

/-- The bounding-box center y coordinate, as the spec words it. -/
def boundsCenterY (b : Bounds) : ℚ := (b.max.y + b.min.y) / 2

/-- The z range of the restricted (upper-band) point set of detect_walls;
the spec claims wall heights equal this quantity. -/
def restrictedZRange (pts : List Point) : ℚ :=
  listMaxD ((wallBand pts).map Point.z) - listMinD ((wallBand pts).map Point.z)

/-- Sample refuting the claim that detect_walls itself enforces the 0.1
minimum length at every grid size: one floor point plus six band points
packed into 0.05 m of x, scanned at grid size 0.01. -/
def c2badPts : List Point :=
  [⟨0, 0, 0⟩, ⟨0, 0, 1⟩, ⟨1/100, 0, 1⟩, ⟨2/100, 0, 1⟩, ⟨3/100, 0, 1⟩,
   ⟨4/100, 0, 1⟩, ⟨1/20, 0, 1⟩]

/-- Sample exercising detect_walls at the default grid size 0.1: one floor
point plus six band points spread over 1 m of x, producing one wall. -/
def c2okPts : List Point :=
  [⟨0, 0, 0⟩, ⟨0, 0, 1⟩, ⟨1/5, 0, 1⟩, ⟨2/5, 0, 1⟩, ⟨3/5, 0, 1⟩,
   ⟨4/5, 0, 1⟩, ⟨1, 0, 1⟩]

/-- Sample refuting the claim that wall heights equal the z range of the
restricted point set: the band holds only z = 1 points (restricted z range
0) while the emitted wall has height 1, the global z range. -/
def c3pts : List Point :=
  [⟨0, 0, 0⟩, ⟨0, 0, 1⟩, ⟨1/5, 0, 1⟩, ⟨2/5, 0, 1⟩, ⟨3/5, 0, 1⟩,
   ⟨4/5, 0, 1⟩, ⟨1, 0, 1⟩]

/-- Sample with one wall, used to instantiate the wall z-coordinate
invariant at a concrete emitted wall. -/
def c9pts : List Point :=
  [⟨0, 0, 0⟩, ⟨0, 0, 1⟩, ⟨1/5, 0, 1⟩, ⟨2/5, 0, 1⟩, ⟨3/5, 0, 1⟩,
   ⟨4/5, 0, 1⟩, ⟨1, 0, 1⟩]

/-- Two points 2 m apart in z at the same xy location: tall enough for the
column scan, whose interior is empty (1×1 grid). -/
def c5pts : List Point := [⟨0, 0, 0⟩, ⟨0, 0, 2⟩]

/-- Sample whose points sit at the two elevations 0 and 1 (one point each),
used to instantiate the two-slab theorem. -/
def c6wpts : List Point := [⟨0, 0, 0⟩, ⟨0, 0, 1⟩]

/-- Sample whose two elevations are separated by 0.31 > 0.3 yet merge into
a single slab, because the surviving bin midpoints are only 0.2583 apart. -/
def c6badPts : List Point := [⟨0, 0, 0⟩, ⟨0, 0, 31/100⟩]

/-- Number of points of a sample lying exactly at elevation a (the size of
one elevation cluster). -/
def elevCount (pts : List Point) (a : ℚ) : ℕ :=
  ((zCoords pts).filter (fun v => v = a)).length

/-- Nonempty degenerate sample (a single point, hence zero height range). -/
def c1degPts : List Point := [⟨0, 0, 5⟩]

/-- A single point at elevation 3 (a one-elevation sample). -/
def c4pts : List Point := [⟨1, 2, 3⟩]

lemma foldl_min_mem : ∀ (t : List ℚ) (a : ℚ), t.foldl min a ∈ a :: t
  | [], _ => List.mem_singleton.mpr rfl
  | b :: t, a => by
    have ih := foldl_min_mem t (min a b)
    simp only [List.foldl_cons]
    rcases List.mem_cons.mp ih with h | h
    · rcases min_choice a b with hm | hm
      · rw [h, hm]; exact List.mem_cons_self _ _
      · rw [h, hm]; exact List.mem_cons_of_mem _ (List.mem_cons_self _ _)
    · exact List.mem_cons_of_mem _ (List.mem_cons_of_mem _ h)

lemma foldl_min_le_init : ∀ (t : List ℚ) (a : ℚ), t.foldl min a ≤ a
  | [], a => le_refl a
  | b :: t, a => le_trans (foldl_min_le_init t (min a b)) (min_le_left a b)

lemma foldl_min_le_mem : ∀ (t : List ℚ) (a x : ℚ), x ∈ t → t.foldl min a ≤ x
  | [], _, x, hx => absurd hx (List.not_mem_nil x)
  | b :: t, a, x, hx => by
    rcases List.mem_cons.mp hx with rfl | hx'
    · exact le_trans (foldl_min_le_init t (min a x)) (min_le_right a x)
    · exact foldl_min_le_mem t (min a b) x hx'

lemma foldl_max_mem : ∀ (t : List ℚ) (a : ℚ), t.foldl max a ∈ a :: t
  | [], _ => List.mem_singleton.mpr rfl
  | b :: t, a => by
    have ih := foldl_max_mem t (max a b)
    simp only [List.foldl_cons]
    rcases List.mem_cons.mp ih with h | h
    · rcases max_choice a b with hm | hm
      · rw [h, hm]; exact List.mem_cons_self _ _
      · rw [h, hm]; exact List.mem_cons_of_mem _ (List.mem_cons_self _ _)
    · exact List.mem_cons_of_mem _ (List.mem_cons_of_mem _ h)

lemma foldl_max_ge_init : ∀ (t : List ℚ) (a : ℚ), a ≤ t.foldl max a
  | [], a => le_refl a
  | b :: t, a => le_trans (le_max_left a b) (foldl_max_ge_init t (max a b))

lemma foldl_max_ge_mem : ∀ (t : List ℚ) (a x : ℚ), x ∈ t → x ≤ t.foldl max a
  | [], _, x, hx => absurd hx (List.not_mem_nil x)
  | b :: t, a, x, hx => by
    rcases List.mem_cons.mp hx with rfl | hx'
    · exact le_trans (le_max_right a x) (foldl_max_ge_init t (max a x))
    · exact foldl_max_ge_mem t (max a b) x hx'

lemma listMinD_mem {l : List ℚ} (h : l ≠ []) : listMinD l ∈ l :=
  match l, h with
  | a :: t, _ => foldl_min_mem t a

lemma listMinD_le {l : List ℚ} {x : ℚ} (hx : x ∈ l) : listMinD l ≤ x :=
  match l, hx with
  | a :: t, hx => by
    rcases List.mem_cons.mp hx with rfl | h
    · exact foldl_min_le_init t x
    · exact foldl_min_le_mem t a x h

lemma listMaxD_mem {l : List ℚ} (h : l ≠ []) : listMaxD l ∈ l :=
  match l, h with
  | a :: t, _ => foldl_max_mem t a

lemma le_listMaxD {l : List ℚ} {x : ℚ} (hx : x ∈ l) : x ≤ listMaxD l :=
  match l, hx with
  | a :: t, hx => by
    rcases List.mem_cons.mp hx with rfl | h
    · exact foldl_max_ge_init t x
    · exact foldl_max_ge_mem t a x h

lemma listMinD_le_listMaxD (l : List ℚ) : listMinD l ≤ listMaxD l := by
  cases l with
  | nil => exact le_refl 0
  | cons a t => exact listMinD_le (listMaxD_mem (List.cons_ne_nil a t))

lemma foldl_natMax_ge_init : ∀ (t : List ℕ) (a : ℕ), a ≤ t.foldl max a
  | [], a => le_refl a
  | b :: t, a => le_trans (le_max_left a b) (foldl_natMax_ge_init t (max a b))

lemma foldl_natMax_ge_mem : ∀ (t : List ℕ) (a x : ℕ), x ∈ t → x ≤ t.foldl max a
  | [], _, x, hx => absurd hx (List.not_mem_nil x)
  | b :: t, a, x, hx => by
    rcases List.mem_cons.mp hx with rfl | hx'
    · exact le_trans (le_max_right a x) (foldl_natMax_ge_init t (max a x))
    · exact foldl_natMax_ge_mem t (max a b) x hx'

lemma foldl_natMax_le : ∀ (t : List ℕ) (a c : ℕ), a ≤ c → (∀ x ∈ t, x ≤ c) →
    t.foldl max a ≤ c
  | [], _, _, ha, _ => ha
  | b :: t, a, c, ha, hb => by
    exact foldl_natMax_le t (max a b) c
      (max_le ha (hb b (List.mem_cons_self _ _)))
      (fun x hx => hb x (List.mem_cons_of_mem _ hx))

lemma le_natListMax {l : List ℕ} {x : ℕ} (hx : x ∈ l) : x ≤ natListMax l :=
  foldl_natMax_ge_mem l 0 x hx

lemma natListMax_le {l : List ℕ} {c : ℕ} (h : ∀ x ∈ l, x ≤ c) :
    natListMax l ≤ c :=
  foldl_natMax_le l 0 c (Nat.zero_le c) h

lemma zCoords_const {pts : List Point} {c : ℚ} (hz : ∀ p ∈ pts, p.z = c) :
    ∀ v ∈ zCoords pts, v = c := by
  intro v hv
  obtain ⟨p, hp, rfl⟩ := List.mem_map.mp hv
  exact hz p hp

lemma zCoords_ne_nil {p : Point} {t : List Point} :
    zCoords (p :: t) ≠ [] := by simp [zCoords]

lemma z_min_const {pts : List Point} {c : ℚ} (hne : pts ≠ [])
    (hz : ∀ p ∈ pts, p.z = c) : z_min pts = c := by
  cases pts with
  | nil => exact absurd rfl hne
  | cons p t => exact zCoords_const hz _ (listMinD_mem zCoords_ne_nil)

lemma z_max_const {pts : List Point} {c : ℚ} (hne : pts ≠ [])
    (hz : ∀ p ∈ pts, p.z = c) : z_max pts = c := by
  cases pts with
  | nil => exact absurd rfl hne
  | cons p t => exact zCoords_const hz _ (listMaxD_mem zCoords_ne_nil)

lemma detect_slabs_const_none (pts : List Point) (c s : ℚ) (hne : pts ≠ [])
    (hz : ∀ p ∈ pts, p.z = c) : detect_slabs pts s = none := by
  cases pts with
  | nil => exact absurd rfl hne
  | cons p t =>
    have hb : slabBins (p :: t) s < 1 := by
      unfold slabBins
      rw [z_min_const hne hz, z_max_const hne hz]
      norm_num [pyInt]
    simp only [detect_slabs]
    rw [if_pos hb]

lemma detect_walls_const_empty (pts : List Point) (c g : ℚ) (hne : pts ≠ [])
    (hz : ∀ p ∈ pts, p.z = c) : detect_walls pts g = some [] := by
  cases pts with
  | nil => exact absurd rfl hne
  | cons p t =>
    have hthr : wallZThreshold (p :: t) = c := by
      unfold wallZThreshold
      rw [z_min_const hne hz, z_max_const hne hz]
      ring
    have hband : wallBand (p :: t) = [] := by
      apply List.filter_eq_nil_iff.mpr
      intro q hq
      rw [hthr, hz q hq]
      simp
    simp only [detect_walls]
    rw [if_pos hband]

lemma detect_columns_const_empty (pts : List Point) (c g : ℚ) (hne : pts ≠ [])
    (hz : ∀ p ∈ pts, p.z = c) : detect_columns pts g = some [] := by
  cases pts with
  | nil => exact absurd rfl hne
  | cons p t =>
    have h1 : z_max (p :: t) - z_min (p :: t) < 2 := by
      rw [z_min_const hne hz, z_max_const hne hz]
      norm_num
    simp only [detect_columns]
    rw [if_pos h1]

/-- C1 as amended. On an empty point sample all three detectors raise (numpy
min of an empty array), modelled as `none`; on a nonempty sample with zero
height range, detect_slabs raises as well (the histogram bin count is 0)
while detect_walls and detect_columns do return empty lists. -/
theorem C1_amended (s g1 g2 : ℚ) (pts : List Point) (c : ℚ)
    (hne : pts ≠ []) (hz : ∀ p ∈ pts, p.z = c) :
    (detect_slabs [] s = none ∧ detect_walls [] g1 = none ∧
      detect_columns [] g2 = none) ∧
    detect_slabs pts s = none ∧ detect_walls pts g1 = some [] ∧
    detect_columns pts g2 = some [] :=
  ⟨⟨rfl, rfl, rfl⟩, detect_slabs_const_none pts c s hne hz,
   detect_walls_const_empty pts c g1 hne hz,
   detect_columns_const_empty pts c g2 hne hz⟩

/-- On the empty point sample every detector raises (modelled as `none`)
instead of returning the empty list the claim asserts. -/
theorem C1_counterexample :
    detect_slabs [] (1/20) = none ∧ detect_walls [] (1/10) = none ∧
    detect_columns [] (1/2) = none ∧
    detect_slabs [] (1/20) ≠ some [] ∧ detect_walls [] (1/10) ≠ some [] ∧
    detect_columns [] (1/2) ≠ some [] := by
  refine ⟨rfl, rfl, rfl, ?_, ?_, ?_⟩ <;> simp [detect_slabs, detect_walls, detect_columns]

/-- Witness for the amended C1 at the concrete degenerate sample
`c1degPts` (a single point at z = 5). -/
theorem C1_amended_witness :
    (detect_slabs [] (1/20) = none ∧ detect_walls [] (1/10) = none ∧
      detect_columns [] (1/2) = none) ∧
    detect_slabs c1degPts (1/20) = none ∧
    detect_walls c1degPts (1/10) = some [] ∧
    detect_columns c1degPts (1/2) = some [] :=
  C1_amended (1/20) (1/10) (1/2) c1degPts 5 (by decide) (by decide)

/-- C4 as amended. For every nonempty sample whose points all lie at one
elevation, detect_slabs raises (`int((z_max - z_min) / z_step)` is 0, and
`np.histogram` rejects a zero bin count) instead of returning one slab. -/
theorem C4_single_elevation_raises (pts : List Point) (c s : ℚ)
    (hne : pts ≠ []) (hz : ∀ p ∈ pts, p.z = c) :
    detect_slabs pts s = none :=
  detect_slabs_const_none pts c s hne hz

/-- On the concrete one-elevation sample `c4pts`, detect_slabs raises
(modelled as `none`) and in particular returns no one-element list. -/
theorem C4_counterexample :
    detect_slabs c4pts (1/20) = none ∧
    ∀ l : List SlabElement, detect_slabs c4pts (1/20) = some l →
      l.length ≠ 1 := by
  refine ⟨by decide, fun l hl => ?_⟩
  rw [show detect_slabs c4pts (1/20) = none from by decide] at hl
  exact Option.noConfusion hl

/-- Witness for the amended C4 at a concrete one-elevation sample. -/
theorem C4_witness : detect_slabs [⟨0, 0, 7⟩] (1/20) = none :=
  C4_single_elevation_raises [⟨0, 0, 7⟩] 7 (1/20) (by decide) (by decide)

lemma detect_walls_mem {pts : List Point} {g : ℚ} {walls : List WallElement}
    {w : WallElement} (h : detect_walls pts g = some walls) (hw : w ∈ walls) :
    (∃ j, j ∈ List.range (wallYBins pts g) ∧ 5 < (occRow pts g j).length ∧
        w = rowWall pts g j) ∨
    (∃ i, i ∈ List.range (wallXBins pts g) ∧ 5 < (occCol pts g i).length ∧
        w = colWall pts g i) := by
  cases pts with
  | nil => exact Option.noConfusion h
  | cons p t =>
    simp only [detect_walls] at h
    by_cases hb : wallBand (p :: t) = []
    · rw [if_pos hb, Option.some.injEq] at h
      rw [← h] at hw
      exact absurd hw (List.not_mem_nil w)
    rw [if_neg hb] at h
    by_cases hg : g = 0
    · rw [if_pos hg] at h
      exact Option.noConfusion h
    rw [if_neg hg] at h
    by_cases hbins : wallXBinsZ (p :: t) g < 1 ∨ wallYBinsZ (p :: t) g < 1
    · rw [if_pos hbins] at h
      exact Option.noConfusion h
    rw [if_neg hbins, Option.some.injEq] at h
    subst h
    rcases List.mem_append.mp hw with hw' | hw'
    · obtain ⟨j, hj, hsome⟩ := List.mem_filterMap.mp hw'
      by_cases h5 : 5 < (occRow (p :: t) g j).length
      · rw [if_pos h5, Option.some.injEq] at hsome
        exact Or.inl ⟨j, hj, h5, hsome.symm⟩
      · rw [if_neg h5] at hsome
        exact Option.noConfusion hsome
    · obtain ⟨i, hi, hsome⟩ := List.mem_filterMap.mp hw'
      by_cases h5 : 5 < (occCol (p :: t) g i).length
      · rw [if_pos h5, Option.some.injEq] at hsome
        exact Or.inr ⟨i, hi, h5, hsome.symm⟩
      · rw [if_neg h5] at hsome
        exact Option.noConfusion hsome

/-- C9. Every wall returned by detect_walls has both its start and its end
z coordinate equal to the minimum z of the entire input sample (not the
bottom of the restricted upper-half band), so start and end always share
this same z value. -/
theorem C9_wall_z_global_min (pts : List Point) (g : ℚ)
    (walls : List WallElement) (w : WallElement)
    (h : detect_walls pts g = some walls) (hw : w ∈ walls) :
    w.start.z = z_min pts ∧ w.endP.z = z_min pts := by
  rcases detect_walls_mem h hw with ⟨j, _, _, rfl⟩ | ⟨i, _, _, rfl⟩
  · exact ⟨rfl, rfl⟩
  · exact ⟨rfl, rfl⟩

/-- Witness instantiating the wall z-coordinate invariant at the single
wall detected in the concrete sample `c9pts`. -/
theorem C9_wall_z_global_min_witness :
    (⟨⟨1/22, 0, 0⟩, ⟨21/22, 0, 0⟩, 1, 1/5⟩ : WallElement).start.z =
        z_min c9pts ∧
    (⟨⟨1/22, 0, 0⟩, ⟨21/22, 0, 0⟩, 1, 1/5⟩ : WallElement).endP.z =
        z_min c9pts :=
  C9_wall_z_global_min c9pts (1/10)
    [⟨⟨1/22, 0, 0⟩, ⟨21/22, 0, 0⟩, 1, 1/5⟩]
    ⟨⟨1/22, 0, 0⟩, ⟨21/22, 0, 0⟩, 1, 1/5⟩ (by decide) (by decide)

/-- C3 as amended. Every wall emitted by detect_walls has height equal to
the full z range of the entire input sample (the restricted upper-band set
only determines occupancy, not the height), thickness 0.2, and start/end at
the centers of the first and last occupied cells of the grid line that
produced it. -/
theorem C3_amended (pts : List Point) (g : ℚ) (walls : List WallElement)
    (w : WallElement) (h : detect_walls pts g = some walls) (hw : w ∈ walls) :
    w.height = z_max pts - z_min pts ∧ w.thickness = 1/5 ∧
    ((∃ j, 5 < (occRow pts g j).length ∧
        w.start = ⟨wallXCenter pts g ((occRow pts g j).headD 0),
                   wallYCenter pts g j, z_min pts⟩ ∧
        w.endP = ⟨wallXCenter pts g ((occRow pts g j).getLastD 0),
                  wallYCenter pts g j, z_min pts⟩) ∨
     (∃ i, 5 < (occCol pts g i).length ∧
        w.start = ⟨wallXCenter pts g i,
                   wallYCenter pts g ((occCol pts g i).headD 0), z_min pts⟩ ∧
        w.endP = ⟨wallXCenter pts g i,
                  wallYCenter pts g ((occCol pts g i).getLastD 0),
                  z_min pts⟩)) := by
  rcases detect_walls_mem h hw with ⟨j, _, h5, rfl⟩ | ⟨i, _, h5, rfl⟩
  · exact ⟨rfl, rfl, Or.inl ⟨j, h5, rfl, rfl⟩⟩
  · exact ⟨rfl, rfl, Or.inr ⟨i, h5, rfl, rfl⟩⟩

/-- The sample `c3pts` refutes the original C3: its restricted point set
has z range 0 (the band holds only z = 1 points), while the single wall
detect_walls returns has height 1, the z range of the whole sample. -/
theorem C3_counterexample :
    detect_walls c3pts (1/10) =
      some [⟨⟨1/22, 0, 0⟩, ⟨21/22, 0, 0⟩, 1, 1/5⟩] ∧
    restrictedZRange c3pts = 0 ∧
    (⟨⟨1/22, 0, 0⟩, ⟨21/22, 0, 0⟩, 1, 1/5⟩ : WallElement).height ≠
      restrictedZRange c3pts := by
  refine ⟨by decide, by decide, by decide⟩

/-- Witness instantiating the amended C3 at the single wall detected in
the concrete sample `c3pts`. -/
theorem C3_amended_witness :
    (⟨⟨1/22, 0, 0⟩, ⟨21/22, 0, 0⟩, 1, 1/5⟩ : WallElement).height =
        z_max c3pts - z_min c3pts ∧
    (⟨⟨1/22, 0, 0⟩, ⟨21/22, 0, 0⟩, 1, 1/5⟩ : WallElement).thickness = 1/5 ∧
    ((∃ j, 5 < (occRow c3pts (1/10) j).length ∧
        (⟨⟨1/22, 0, 0⟩, ⟨21/22, 0, 0⟩, 1, 1/5⟩ : WallElement).start =
          ⟨wallXCenter c3pts (1/10) ((occRow c3pts (1/10) j).headD 0),
           wallYCenter c3pts (1/10) j, z_min c3pts⟩ ∧
        (⟨⟨1/22, 0, 0⟩, ⟨21/22, 0, 0⟩, 1, 1/5⟩ : WallElement).endP =
          ⟨wallXCenter c3pts (1/10) ((occRow c3pts (1/10) j).getLastD 0),
           wallYCenter c3pts (1/10) j, z_min c3pts⟩) ∨
     (∃ i, 5 < (occCol c3pts (1/10) i).length ∧
        (⟨⟨1/22, 0, 0⟩, ⟨21/22, 0, 0⟩, 1, 1/5⟩ : WallElement).start =
          ⟨wallXCenter c3pts (1/10) i,
           wallYCenter c3pts (1/10) ((occCol c3pts (1/10) i).headD 0),
           z_min c3pts⟩ ∧
        (⟨⟨1/22, 0, 0⟩, ⟨21/22, 0, 0⟩, 1, 1/5⟩ : WallElement).endP =
          ⟨wallXCenter c3pts (1/10) i,
           wallYCenter c3pts (1/10) ((occCol c3pts (1/10) i).getLastD 0),
           z_min c3pts⟩)) :=
  C3_amended c3pts (1/10) [⟨⟨1/22, 0, 0⟩, ⟨21/22, 0, 0⟩, 1, 1/5⟩]
    ⟨⟨1/22, 0, 0⟩, ⟨21/22, 0, 0⟩, 1, 1/5⟩ (by decide) (by decide)

lemma headD_mem : ∀ (l : List ℕ) (d : ℕ), l ≠ [] → l.headD d ∈ l
  | [], _, h => absurd rfl h
  | a :: t, _, _ => by
    rw [List.headD_cons]
    exact List.mem_cons_self a t

lemma getLastD_mem : ∀ (l : List ℕ) (d : ℕ), l ≠ [] → l.getLastD d ∈ l
  | [], _, h => absurd rfl h
  | [a], d, _ => by
    rw [List.getLastD_cons, List.getLastD_nil]
    exact List.mem_singleton.mpr rfl
  | a :: b :: t, d, _ => by
    have ih := getLastD_mem (b :: t) a (by simp)
    rw [List.getLastD_cons]
    exact List.mem_cons_of_mem a ih

lemma pairwise_headD_le_getLastD : ∀ (l : List ℕ), l.Pairwise (· < ·) →
    l ≠ [] → l.headD 0 + (l.length - 1) ≤ l.getLastD 0
  | [], _, h => absurd rfl h
  | [a], _, _ => by
    rw [List.getLastD_cons, List.getLastD_nil, List.headD_cons]
    simp
  | a :: b :: t, hp, _ => by
    have hab : a < b := (List.pairwise_cons.mp hp).1 b (List.mem_cons_self b t)
    have ih := pairwise_headD_le_getLastD (b :: t)
      (List.pairwise_cons.mp hp).2 (by simp)
    rw [List.getLastD_cons, List.getLastD_cons]
    rw [List.headD_cons, List.getLastD_cons] at ih
    simp only [List.headD_cons, List.length_cons] at ih ⊢
    omega

lemma binCenter_spread (lo hi : ℚ) (hle : lo ≤ hi) (i1 i2 : ℕ)
    (h5 : i1 + 5 ≤ i2) (h2 : i2 < (pyInt ((hi - lo) / (1/10)) + 1).toNat) :
    1/10 ≤ binCenter lo hi ((pyInt ((hi - lo) / (1/10)) + 1).toNat) i2 -
           binCenter lo hi ((pyInt ((hi - lo) / (1/10)) + 1).toNat) i1 := by
  have hR0 : 0 ≤ hi - lo := by linarith
  have hq : (hi - lo) / (1/10) = (hi - lo) * 10 := by
    field_simp
  have hpy : pyInt ((hi - lo) / (1/10)) = ⌊(hi - lo) * 10⌋ := by
    rw [pyInt, if_pos (div_nonneg hR0 (by norm_num)), hq]
  have hfl0 : (0 : ℤ) ≤ ⌊(hi - lo) * 10⌋ :=
    Int.floor_nonneg.mpr (by nlinarith)
  have hnz : ((pyInt ((hi - lo) / (1/10)) + 1).toNat : ℤ) =
      ⌊(hi - lo) * 10⌋ + 1 := by
    rw [hpy]
    omega
  have hn6 : 6 ≤ (pyInt ((hi - lo) / (1/10)) + 1).toNat := by omega
  have h105 : (5 : ℤ) ≤ ⌊(hi - lo) * 10⌋ := by omega
  have hR12 : 1/2 ≤ hi - lo := by
    have h5' := Int.le_floor.mp h105
    push_cast at h5'
    linarith
  have hlo : ¬lo = hi := by
    intro he
    rw [he] at hR12
    linarith
  set n : ℕ := (pyInt ((hi - lo) / (1/10)) + 1).toNat with hndef
  have hnQ : (n : ℚ) ≤ (hi - lo) * 10 + 1 := by
    have hcast : (n : ℚ) = (⌊(hi - lo) * 10⌋ : ℚ) + 1 := by
      exact_mod_cast hnz
    have hfl := Int.floor_le ((hi - lo) * 10)
    linarith
  have hn0 : (0 : ℚ) < n := by
    have h6' : (6 : ℚ) ≤ n := by exact_mod_cast hn6
    linarith
  have hi21 : (i1 : ℚ) + 5 ≤ (i2 : ℚ) := by exact_mod_cast h5
  simp only [binCenter, outerLo, outerHi, if_neg hlo]
  have hΔ : lo + ((i2 : ℚ) + 1/2) * (hi - lo) / n -
      (lo + ((i1 : ℚ) + 1/2) * (hi - lo) / n) =
      ((i2 : ℚ) - i1) * ((hi - lo) / n) := by
    ring
  rw [hΔ]
  have h5w : 5 * ((hi - lo) / n) ≤ ((i2 : ℚ) - i1) * ((hi - lo) / n) := by
    apply mul_le_mul_of_nonneg_right (by linarith)
    exact div_nonneg hR0 hn0.le
  have hbase : 1/10 ≤ 5 * ((hi - lo) / n) := by
    rw [mul_div_assoc'] at *
    rw [le_div_iff hn0]
    linarith
  linarith

lemma occ_spread (lo hi : ℚ) (hle : lo ≤ hi) (pred : ℕ → Bool)
    (l : List ℕ)
    (hl : l = (List.range ((pyInt ((hi - lo) / (1/10)) + 1).toNat)).filter pred)
    (h5 : 5 < l.length) :
    1/10 ≤
      binCenter lo hi ((pyInt ((hi - lo) / (1/10)) + 1).toNat) (l.getLastD 0) -
      binCenter lo hi ((pyInt ((hi - lo) / (1/10)) + 1).toNat) (l.headD 0) := by
  have hne : l ≠ [] := by
    intro he
    rw [he] at h5
    simp at h5
  have hpw : l.Pairwise (· < ·) := by
    rw [hl]
    exact List.Pairwise.sublist (List.filter_sublist _) (List.sorted_lt_range _)
  have hhl := pairwise_headD_le_getLastD l hpw hne
  have hmem := getLastD_mem l 0 hne
  have h2 : l.getLastD 0 < (pyInt ((hi - lo) / (1/10)) + 1).toNat := by
    have hmem2 : l.getLastD 0 ∈
        (List.range ((pyInt ((hi - lo) / (1/10)) + 1).toNat)).filter pred := by
      rw [← hl]
      exact hmem
    exact List.mem_range.mp (List.mem_of_mem_filter hmem2)
  exact binCenter_spread lo hi hle _ _ (by omega) h2

lemma wxlo_le_wxhi (pts : List Point) : wxlo pts ≤ wxhi pts :=
  listMinD_le_listMaxD ((wallBand pts).map Point.x)

lemma wylo_le_wyhi (pts : List Point) : wylo pts ≤ wyhi pts :=
  listMinD_le_listMaxD ((wallBand pts).map Point.y)

/-- C2 as amended. At the default grid size 0.1 every wall detect_walls
returns has start-to-end length at least 0.1 (stated on squares to stay in
ℚ); but the sub-0.1 discard itself is performed by IFCGenerator.create_wall,
which returns None exactly when the squared length is below 0.1² — the
detector applies no length filter of its own, and at smaller grid sizes it
does return walls shorter than 0.1. -/
theorem C2_amended :
    (∀ (pts : List Point) (walls : List WallElement) (w : WallElement),
        detect_walls pts (1/10) = some walls → w ∈ walls →
        (1/10) ^ 2 ≤ wallLengthSq w) ∧
    (∀ w : WallElement, create_wall w = none ↔ wallLengthSq w < (1/10) ^ 2) := by
  constructor
  · intro pts walls w h hw
    rcases detect_walls_mem h hw with ⟨j, _, h5, rfl⟩ | ⟨i, _, h5, rfl⟩
    · have hsp := occ_spread (wxlo pts) (wxhi pts) (wxlo_le_wxhi pts)
        (fun i => wallMask pts (1/10) i j) (occRow pts (1/10) j) rfl h5
      have he : wallLengthSq (rowWall pts (1/10) j) =
          (wallXCenter pts (1/10) ((occRow pts (1/10) j).getLastD 0) -
           wallXCenter pts (1/10) ((occRow pts (1/10) j).headD 0)) ^ 2 := by
        simp only [wallLengthSq, rowWall]
        ring
      rw [he]
      exact pow_le_pow_left (by norm_num) hsp 2
    · have hsp := occ_spread (wylo pts) (wyhi pts) (wylo_le_wyhi pts)
        (fun j => wallMask pts (1/10) i j) (occCol pts (1/10) i) rfl h5
      have he : wallLengthSq (colWall pts (1/10) i) =
          (wallYCenter pts (1/10) ((occCol pts (1/10) i).getLastD 0) -
           wallYCenter pts (1/10) ((occCol pts (1/10) i).headD 0)) ^ 2 := by
        simp only [wallLengthSq, colWall]
        ring
      rw [he]
      exact pow_le_pow_left (by norm_num) hsp 2
  · intro w
    unfold create_wall
    by_cases hlt : wallLengthSq w < (1/10) ^ 2
    · rw [if_pos hlt]
      exact ⟨fun _ => hlt, fun _ => rfl⟩
    · rw [if_neg hlt]
      exact ⟨fun hno => Option.noConfusion hno, fun hc => absurd hc hlt⟩

/-- With grid size 0.01 the sample `c2badPts` makes detect_walls return a
wall of squared length 1/576 < 0.1², refuting both the claim that the
bound holds for every grid size and the claim that the detector itself
discards short candidates. -/
theorem C2_counterexample :
    detect_walls c2badPts (1/100) =
      some [⟨⟨1/240, 0, 0⟩, ⟨11/240, 0, 0⟩, 1, 1/5⟩] ∧
    wallLengthSq ⟨⟨1/240, 0, 0⟩, ⟨11/240, 0, 0⟩, 1, 1/5⟩ < (1/10) ^ 2 := by
  constructor
  · decide
  · decide

/-- Witness instantiating the amended C2 at the single wall detected in
the concrete sample `c2okPts` at the default grid size. -/
theorem C2_amended_witness :
    (1/10 : ℚ) ^ 2 ≤
      wallLengthSq ⟨⟨1/22, 0, 0⟩, ⟨21/22, 0, 0⟩, 1, 1/5⟩ :=
  C2_amended.1 c2okPts [⟨⟨1/22, 0, 0⟩, ⟨21/22, 0, 0⟩, 1, 1/5⟩]
    ⟨⟨1/22, 0, 0⟩, ⟨21/22, 0, 0⟩, 1, 1/5⟩ (by decide) (by decide)

lemma z_min_two {pts : List Point} {a b : ℚ} (hab : a ≤ b)
    (hz : ∀ p ∈ pts, p.z = a ∨ p.z = b) (hma : ∃ p ∈ pts, p.z = a) :
    z_min pts = a := by
  obtain ⟨p0, hp0, hz0⟩ := hma
  have hne : zCoords pts ≠ [] := by
    cases pts with
    | nil => cases hp0
    | cons q t => exact zCoords_ne_nil
  have hmem := listMinD_mem hne
  have hle : listMinD (zCoords pts) ≤ a := by
    have hm : p0.z ∈ zCoords pts := List.mem_map_of_mem Point.z hp0
    rw [hz0] at hm
    exact listMinD_le hm
  have hge : a ≤ listMinD (zCoords pts) := by
    obtain ⟨q, hq, hqe⟩ := List.mem_map.mp hmem
    rcases hz q hq with h | h
    · rw [← hqe, h]
    · rw [← hqe, h]
      exact hab
  exact le_antisymm hle hge

lemma z_max_two {pts : List Point} {a b : ℚ} (hab : a ≤ b)
    (hz : ∀ p ∈ pts, p.z = a ∨ p.z = b) (hmb : ∃ p ∈ pts, p.z = b) :
    z_max pts = b := by
  obtain ⟨p0, hp0, hz0⟩ := hmb
  have hne : zCoords pts ≠ [] := by
    cases pts with
    | nil => cases hp0
    | cons q t => exact zCoords_ne_nil
  have hmem := listMaxD_mem hne
  have hge : b ≤ listMaxD (zCoords pts) := by
    have hm : p0.z ∈ zCoords pts := List.mem_map_of_mem Point.z hp0
    rw [hz0] at hm
    exact le_listMaxD hm
  have hle : listMaxD (zCoords pts) ≤ b := by
    obtain ⟨q, hq, hqe⟩ := List.mem_map.mp hmem
    rcases hz q hq with h | h
    · rw [← hqe, h]
      exact hab
    · rw [← hqe, h]
  exact le_antisymm hle hge

lemma binIdx_left {a b : ℚ} (hab : a < b) (K : ℕ) : binIdx a b K a = 0 := by
  simp only [binIdx, outerLo, outerHi, if_neg hab.ne]
  rw [show (a - a) * (K : ℚ) / (b - a) = 0 by rw [sub_self]; ring]
  rw [Int.floor_zero]
  rfl

lemma binIdx_right {a b : ℚ} (hab : a < b) (K : ℕ) :
    binIdx a b K b = K - 1 := by
  simp only [binIdx, outerLo, outerHi, if_neg hab.ne]
  simp

lemma slabHist_congr {pts : List Point} {s a b : ℚ} (hab : a < b)
    (hmin : z_min pts = a) (hmax : z_max pts = b) (i : ℕ) :
    slabHist pts s i =
      ((zCoords pts).filter
        (fun v => binIdx a b (slabBinsN pts s) v = i)).length := by
  unfold slabHist
  rw [hmin, hmax]

lemma slabHist_zero {pts : List Point} {s a b : ℚ} (hab : a < b)
    (hz : ∀ p ∈ pts, p.z = a ∨ p.z = b)
    (hmin : z_min pts = a) (hmax : z_max pts = b)
    (hK2 : 2 ≤ slabBinsN pts s) :
    slabHist pts s 0 = elevCount pts a := by
  rw [slabHist_congr hab hmin hmax]
  unfold elevCount
  congr 1
  apply List.filter_congr
  intro v hv
  obtain ⟨p, hp, rfl⟩ := List.mem_map.mp hv
  rcases hz p hp with h | h
  · rw [h, binIdx_left hab]
    simp
  · rw [h, binIdx_right hab]
    have : ¬(slabBinsN pts s - 1 = 0) := by omega
    simp [this, hab.ne']

lemma slabHist_last {pts : List Point} {s a b : ℚ} (hab : a < b)
    (hz : ∀ p ∈ pts, p.z = a ∨ p.z = b)
    (hmin : z_min pts = a) (hmax : z_max pts = b)
    (hK2 : 2 ≤ slabBinsN pts s) :
    slabHist pts s (slabBinsN pts s - 1) = elevCount pts b := by
  rw [slabHist_congr hab hmin hmax]
  unfold elevCount
  congr 1
  apply List.filter_congr
  intro v hv
  obtain ⟨p, hp, rfl⟩ := List.mem_map.mp hv
  rcases hz p hp with h | h
  · rw [h, binIdx_left hab]
    have : ¬((0 : ℕ) = slabBinsN pts s - 1) := by omega
    simp [this, hab.ne]
  · rw [h, binIdx_right hab]
    simp

lemma slabHist_mid {pts : List Point} {s a b : ℚ} (hab : a < b)
    (hz : ∀ p ∈ pts, p.z = a ∨ p.z = b)
    (hmin : z_min pts = a) (hmax : z_max pts = b)
    {i : ℕ} (h0 : 0 < i) (h1 : i < slabBinsN pts s - 1) :
    slabHist pts s i = 0 := by
  rw [slabHist_congr hab hmin hmax]
  rw [List.length_eq_zero]
  apply List.filter_eq_nil_iff.mpr
  intro v hv
  obtain ⟨p, hp, rfl⟩ := List.mem_map.mp hv
  rcases hz p hp with h | h
  · rw [h, binIdx_left hab]
    simp
    omega
  · rw [h, binIdx_right hab]
    simp
    omega

lemma filter_range_two (K : ℕ) (hK : 2 ≤ K) (p : ℕ → Bool)
    (h0 : p 0 = true) (hlast : p (K - 1) = true)
    (hmid : ∀ i, 0 < i → i < K - 1 → p i = false) :
    (List.range K).filter p = [0, K - 1] := by
  obtain ⟨m, rfl⟩ : ∃ m, K = m + 2 := ⟨K - 2, by omega⟩
  rw [show m + 2 = (m + 1) + 1 from rfl, List.range_succ, List.filter_append]
  have h1 : (List.range (m + 1)).filter p = [0] := by
    rw [List.range_succ_eq_map, List.filter_cons, if_pos h0]
    have h2 : ((List.range m).map Nat.succ).filter p = [] := by
      apply List.filter_eq_nil_iff.mpr
      intro v hv
      obtain ⟨i, hi, rfl⟩ := List.mem_map.mp hv
      have hiK : i.succ < m + 2 - 1 := by
        have := List.mem_range.mp hi
        omega
      rw [hmid i.succ (Nat.succ_pos i) hiK]
      simp
    rw [h2]
  have h3 : List.filter p [m + 1] = [m + 1] := by
    rw [List.filter_cons]
    have : p (m + 1) = true := by
      have : m + 2 - 1 = m + 1 := by omega
      rw [← this]
      exact hlast
    rw [if_pos this, List.filter_nil]
  rw [h1, h3]
  have : m + 2 - 1 = m + 1 := by omega
  rw [this]
  rfl

lemma slabAvg_single (x : ℚ) : slabAvg [x] = x := by
  simp [slabAvg]

lemma binCenter_zero {a b : ℚ} (hab : a < b) (K : ℕ) :
    binCenter a b K 0 = a + (b - a) / K / 2 := by
  simp only [binCenter, outerLo, outerHi, if_neg hab.ne]
  push_cast
  ring

lemma binCenter_last {a b : ℚ} (hab : a < b) {K : ℕ} (hK : 1 ≤ K) :
    binCenter a b K (K - 1) = b - (b - a) / K / 2 := by
  simp only [binCenter, outerLo, outerHi, if_neg hab.ne]
  have hc : ((K - 1 : ℕ) : ℚ) = (K : ℚ) - 1 := by
    push_cast [hK]
    ring
  rw [hc]
  have hK0 : (K : ℚ) ≠ 0 := by
    have : (1 : ℚ) ≤ (K : ℚ) := by exact_mod_cast hK
    intro h
    rw [h] at this
    linarith
  field_simp
  ring

/-- C6 as amended. For a sample whose points all lie at exactly two
elevations a < b, with both clusters present and each cluster count above
the detector threshold (0.3 × the largest bin count), detect_slabs
returns exactly two slabs precisely when the two surviving bin midpoints
are at least 0.3 apart, i.e. when (b - a) - (b - a)/bins ≥ 0.3; the two
elevations are then the bin midpoints a + w/2 and b - w/2 (w the bin
width), each half a bin width away from its cluster mean — not the cluster
means themselves. -/
theorem C6_amended (pts : List Point) (s a b : ℚ)
    (hab : a < b)
    (hz : ∀ p ∈ pts, p.z = a ∨ p.z = b)
    (hma : ∃ p ∈ pts, p.z = a) (hmb : ∃ p ∈ pts, p.z = b)
    (hK2 : 2 ≤ slabBinsN pts s)
    (hba : (slabHistMax pts s : ℚ) * (3/10) < (elevCount pts a : ℚ))
    (hbb : (slabHistMax pts s : ℚ) * (3/10) < (elevCount pts b : ℚ))
    (hgap : 3/10 ≤ (b - a) - (b - a) / (slabBinsN pts s : ℚ)) :
    detect_slabs pts s =
      some [⟨a + (b - a) / (slabBinsN pts s : ℚ) / 2, 3/10⟩,
            ⟨b - (b - a) / (slabBinsN pts s : ℚ) / 2, 3/10⟩] := by
  have hmin : z_min pts = a := z_min_two hab.le hz hma
  have hmax : z_max pts = b := z_max_two hab.le hz hmb
  have hthr0 : (0 : ℚ) ≤ (slabHistMax pts s : ℚ) * (3/10) := by positivity
  have hcands : slabCandidates pts s =
      [(binCenter a b (slabBinsN pts s) 0, slabHist pts s 0),
       (binCenter a b (slabBinsN pts s) (slabBinsN pts s - 1),
        slabHist pts s (slabBinsN pts s - 1))] := by
    unfold slabCandidates slabThreshold
    rw [hmin, hmax]
    rw [filter_range_two (slabBinsN pts s) hK2 _ ?_ ?_ ?_]
    · rfl
    · rw [decide_eq_true_iff]
      rw [slabHist_zero hab hz hmin hmax hK2]
      exact hba
    · rw [decide_eq_true_iff]
      rw [slabHist_last hab hz hmin hmax hK2]
      exact hbb
    · intro i h0 h1
      rw [decide_eq_false_iff_not]
      rw [slabHist_mid hab hz hmin hmax h0 h1]
      push_cast
      exact not_lt.mpr hthr0
  cases pts with
  | nil =>
    obtain ⟨p, hp, _⟩ := hma
    cases hp
  | cons q t =>
    simp only [detect_slabs]
    have hguard : ¬slabBins (q :: t) s < 1 := by
      have h2 := hK2
      unfold slabBinsN at h2
      omega
    rw [if_neg hguard, hcands]
    rw [binCenter_zero hab, binCenter_last hab (by omega)]
    simp only [List.map_cons, List.map_nil]
    rw [mergeGroups, mergeGroups]
    have hlast : ([a + (b - a) / (slabBinsN (q :: t) s : ℚ) / 2].getLastD 0) =
        a + (b - a) / (slabBinsN (q :: t) s : ℚ) / 2 := rfl
    rw [hlast]
    have hnotlt : ¬(b - (b - a) / (slabBinsN (q :: t) s : ℚ) / 2 -
        (a + (b - a) / (slabBinsN (q :: t) s : ℚ) / 2) < 3/10) := by
      push_neg
      have : b - (b - a) / (slabBinsN (q :: t) s : ℚ) / 2 -
          (a + (b - a) / (slabBinsN (q :: t) s : ℚ) / 2) =
          (b - a) - (b - a) / (slabBinsN (q :: t) s : ℚ) := by
        ring
      rw [this]
      exact hgap
    rw [if_neg hnotlt]
    rw [mergeGroups]
    rw [slabAvg_single, slabAvg_single]

/-- With the two elevations 0 and 0.31 — separated by more than 0.3 —
detect_slabs merges the two surviving bins (their midpoints are only
31/120 < 0.3 apart) and returns a single slab, not two. -/
theorem C6_counterexample :
    detect_slabs c6badPts (1/20) = some [⟨31/200, 3/10⟩] ∧
    (31/100 : ℚ) - 0 > 3/10 ∧
    ∀ l, detect_slabs c6badPts (1/20) = some l → l.length = 1 := by
  refine ⟨by decide, by norm_num, fun l hl => ?_⟩
  rw [show detect_slabs c6badPts (1/20) = some [⟨31/200, 3/10⟩] from by decide]
    at hl
  rw [Option.some.injEq] at hl
  rw [← hl]
  rfl

/-- Witness instantiating the amended C6 on the concrete sample `c6wpts`
(one point at z = 0 and one at z = 1). -/
theorem C6_amended_witness :
    detect_slabs c6wpts (1/20) =
      some [⟨0 + (1 - 0) / (slabBinsN c6wpts (1/20) : ℚ) / 2, 3/10⟩,
            ⟨1 - (1 - 0) / (slabBinsN c6wpts (1/20) : ℚ) / 2, 3/10⟩] :=
  C6_amended c6wpts (1/20) 0 1 (by norm_num) (by decide) (by decide)
    (by decide) (by decide) (by decide) (by decide) (by decide)

/-- C7. For every slab handed to geometry synthesis, the produced profile
dimensions equal the x and y extents of the whole model bounding box, the
extrusion depth equals the slab thickness with extrusion axis +Z, and the
placement location is the bounds center at the slab elevation. -/
theorem C7_slab_geometry (s : SlabElement) (b : Bounds) :
    (create_slab s b).profileX = xExtent b ∧
    (create_slab s b).profileY = yExtent b ∧
    (create_slab s b).depth = s.thickness ∧
    (create_slab s b).extrudedDirection = ⟨0, 0, 1⟩ ∧
    (create_slab s b).location = ⟨boundsCenterX b, boundsCenterY b, s.z⟩ :=
  ⟨rfl, rfl, rfl, rfl, rfl⟩

/-- C8. Running the full detection-and-assembly pipeline twice on the same
point sample yields identical building models: the pipeline is a pure
function of its input, with no source of randomness. -/
theorem C8_pipeline_deterministic (pts : List Point) :
    (runPipelineTwice pts).1 = (runPipelineTwice pts).2 := rfl

/-- C10. The column local-maximum test is non-strict: on `c10pts` the two
adjacent interior cells (1,1) and (2,1) hold equal counts, each merely
equals (rather than exceeds) the maximum of its 3×3 neighborhood, and
detect_columns emits a ColumnElement for both; their x positions differ by
exactly one cell width, so the cells are adjacent. -/
theorem C10_adjacent_equal_columns :
    detect_columns c10pts (1/2) =
      some [⟨⟨27/40, 3/5, 0⟩, 2, 2/5, 2/5⟩, ⟨⟨9/8, 3/5, 0⟩, 2, 2/5, 2/5⟩] ∧
    colCount c10pts (1/2) 1 1 = colCount c10pts (1/2) 2 1 ∧
    colCount c10pts (1/2) 1 1 = nbhdMax c10pts (1/2) 1 1 ∧
    colCount c10pts (1/2) 2 1 = nbhdMax c10pts (1/2) 2 1 ∧
    (9/8 : ℚ) - 27/40 =
      (cxhi c10pts - cxlo c10pts) / (colXBins c10pts (1/2) : ℚ) := by
  decide

/-- C5. Whenever detect_columns returns a list (rather than raising), either
the z range was below 2 and the list is empty, or the list is the raw
candidate list truncated exactly as the code does: cut to the first 20 (in
scan order, hence length exactly 20) when more than 50 candidates exist,
and returned unmodified when at most 50 exist. -/
theorem C5_column_cap (pts : List Point) (g : ℚ) (res : List ColumnElement)
    (h : detect_columns pts g = some res) :
    (res = [] ∧ z_max pts - z_min pts < 2) ∨
    ((50 < (columnCandidates pts g).length →
        res = (columnCandidates pts g).take 20 ∧ res.length = 20) ∧
     ((columnCandidates pts g).length ≤ 50 →
        res = columnCandidates pts g)) := by
  cases pts with
  | nil => simp [detect_columns] at h
  | cons p t =>
    simp only [detect_columns] at h
    by_cases h1 : z_max (p :: t) - z_min (p :: t) < 2
    · rw [if_pos h1, Option.some.injEq] at h
      exact Or.inl ⟨h.symm, h1⟩
    rw [if_neg h1] at h
    by_cases h2 : g = 0
    · rw [if_pos h2] at h
      exact Option.noConfusion h
    rw [if_neg h2] at h
    by_cases h3 : colXBinsZ (p :: t) g < 1 ∨ colYBinsZ (p :: t) g < 1
    · rw [if_pos h3] at h
      exact Option.noConfusion h
    rw [if_neg h3, Option.some.injEq] at h
    by_cases h50 : 50 < (columnCandidates (p :: t) g).length
    · rw [if_pos h50] at h
      refine Or.inr ⟨fun _ => ⟨h.symm, ?_⟩, fun hle => absurd h50 (by omega)⟩
      rw [← h, List.length_take]
      omega
    · rw [if_neg h50] at h
      exact Or.inr ⟨fun h50' => absurd h50' h50, fun _ => h.symm⟩

/-- Witness instantiating the column-cap theorem on the concrete sample
`c5pts`, whose candidate list is empty (so the at-most-50 branch applies). -/
theorem C5_column_cap_witness :
    (([] : List ColumnElement) = [] ∧ z_max c5pts - z_min c5pts < 2) ∨
    ((50 < (columnCandidates c5pts (1/2)).length →
        ([] : List ColumnElement) = (columnCandidates c5pts (1/2)).take 20 ∧
        ([] : List ColumnElement).length = 20) ∧
     ((columnCandidates c5pts (1/2)).length ≤ 50 →
        ([] : List ColumnElement) = columnCandidates c5pts (1/2))) :=
  C5_column_cap c5pts (1/2) [] (by decide)

end E57
